import Mathlib

/-!
Verification of the lane-allocation core of `app.py`.

The embedded functions are `parse_power_data`, `find_best_allocation` and
`run_precise_optimization_logic`.  A team is an (identifier, power) pair of
naturals; lane targets are integers (advantages may be negative).  The
`float(-inf)` sentinel used by the source for a full lane is embedded as
`Option Int` with `none` playing the role of `-inf` (an integer deficit never
equals `-inf`, and `-inf` compares below every integer), and the Python
`max(deficits, key=deficits.get)` scan — which keeps the first key attaining
the maximum in the fixed insertion order left, center, right — is embedded as
the nested comparison `pick` below.
-/

namespace OTT

/-- A team: `(編號, 戰力)`, i.e. (identifier, power). -/
abbrev Team := Nat × Nat

/-- The three lanes, in the dict insertion order of the source:
`left`, `center`, `right`. -/
inductive LaneName where
  | left
  | center
  | right
deriving DecidableEq, Repr

/-- Position of a lane in the fixed iteration order of the source. -/
def laneIdx : LaneName → Nat
  | .left => 0
  | .center => 1
  | .right => 2

/-- The three lane targets, one integer per lane name. -/
structure Targets where
  left : Int
  center : Int
  right : Int
deriving DecidableEq, Repr

/-- Mutable per-lane state during the allocation loop: the assigned
teams, the accumulated power `current_power`, and the lane target. -/
structure LaneState where
  teams : List Team
  current_power : Nat
  target : Int
deriving DecidableEq, Repr

/-- The `lanes` dict of `find_best_allocation`. -/
structure Lanes where
  left : LaneState
  center : LaneState
  right : LaneState
deriving DecidableEq, Repr

/-- Look a lane up by name. -/
def laneOf (s : Lanes) : LaneName → LaneState
  | .left => s.left
  | .center => s.center
  | .right => s.right

/-- Replace the state of one lane. -/
def setLane (s : Lanes) (l : LaneName) (d : LaneState) : Lanes :=
  match l with
  | .left => { s with left := d }
  | .center => { s with center := d }
  | .right => { s with right := d }

/-- The deficit entry of a lane: `target - current_power` while the lane has fewer than
20 teams, and the `float(-inf)` sentinel (here `none`) once it is full. -/
def deficit (d : LaneState) : Option Int :=
  if d.teams.length < 20 then some (d.target - (d.current_power : Int)) else none

/-- Strict `<` on deficit values with `none` as `-inf`:
`-inf < z` for every integer `z`, and `-inf < -inf` is false. -/
def dlt : Option Int → Option Int → Bool
  | none, none => false
  | none, some _ => true
  | some _, none => false
  | some a, some b => a < b

/-- The max-by-deficit scan of the source: scan the values in the order
left, center, right, replacing the current best only on a strictly greater
value, and return the winning key. -/
def pick (dl dc dr : Option Int) : LaneName :=
  if dlt dl dc then (if dlt dc dr then .right else .center)
  else (if dlt dl dr then .right else .left)

/-- The lane `best_lane_to_assign` chosen for the next team. -/
def bestLane (s : Lanes) : LaneName :=
  pick (deficit s.left) (deficit s.center) (deficit s.right)

/-- The guard that every deficit value equals the `-inf` sentinel: an
integer deficit never equals `-inf`, so this holds exactly when all three
lanes are full. -/
def allFull (s : Lanes) : Bool :=
  (deficit s.left).isNone && (deficit s.center).isNone && (deficit s.right).isNone

/-- Append the team to the team list of the lane and add its power to the
accumulated power of the lane. -/
def addTeam (d : LaneState) (t : Team) : LaneState :=
  { d with teams := d.teams ++ [t], current_power := d.current_power + t.2 }

/-- Append a team to the named lane. -/
def addToLane (s : Lanes) (l : LaneName) (t : Team) : Lanes :=
  setLane s l (addTeam (laneOf s l) t)

/-- One iteration of the `for team_id, team_power in our_teams` loop:
skip the team when every lane is full, otherwise append it to the lane with
the greatest deficit. -/
def assignTeam (s : Lanes) (t : Team) : Lanes :=
  if allFull s then s else addToLane s (bestLane s) t

/-- The initial `lanes` dict. -/
def initLanes (targets : Targets) : Lanes :=
  { left := { teams := [], current_power := 0, target := targets.left }
    center := { teams := [], current_power := 0, target := targets.center }
    right := { teams := [], current_power := 0, target := targets.right } }

/-- One per-lane entry of the final allocation dict. -/
structure LaneResult where
  teams : List Team
  total_power : Nat
  target : Int
  difference : Int
  count : Nat
  is_success : Bool
deriving DecidableEq, Repr

/-- The `final_allocation` dict returned by `find_best_allocation`. -/
structure Allocation where
  success : Bool
  left : LaneResult
  center : LaneResult
  right : LaneResult
deriving DecidableEq, Repr

/-- Post-processing of one lane: teams re-sorted by identifier ascending
(the Python `sorted` builtin is a stable sort), plus the derived figures. -/
def finalizeLane (d : LaneState) : LaneResult :=
  { teams := d.teams.mergeSort (fun a b => a.1 ≤ b.1)
    total_power := d.current_power
    target := d.target
    difference := (d.current_power : Int) - d.target
    count := d.teams.length
    is_success := decide ((d.current_power : Int) ≥ d.target) }

/-- The function `find_best_allocation` of the source: the deficit-priority greedy
loop followed by per-lane post-processing; the global `success` flag is the
conjunction of the three per-lane flags, accumulated lane by lane in the
final loop of the source. -/
def find_best_allocation (our_teams : List Team) (targets : Targets) :
    Allocation :=
  let final := our_teams.foldl assignTeam (initLanes targets)
  let lres := finalizeLane final.left
  let cres := finalizeLane final.center
  let rres := finalizeLane final.right
  { success := lres.is_success && cres.is_success && rres.is_success
    left := lres
    center := cres
    right := rres }

/-! ## `parse_power_data` -/

/-- One step of accumulating maximal runs of decimal digits, embedding
the findall of the digit-run regex over the text: the first argument is the text still to
scan, the second the digits of the run in progress (reversed). -/
def digitRunsAux : List Char → List Char → List (List Char)
  | [], acc => if acc = [] then [] else [acc.reverse]
  | c :: cs, acc =>
    if c.isDigit then digitRunsAux cs (c :: acc)
    else if acc = [] then digitRunsAux cs []
    else acc.reverse :: digitRunsAux cs []

/-- Conversion of a run of decimal digits to its value, as the Python `int`. -/
def digitsToNat (run : List Char) : Nat :=
  run.foldl (fun acc c => 10 * acc + (c.toNat - 48)) 0

/-- The `numbers` list: every maximal decimal-digit substring of the text,
in order, read as a natural number. -/
def findall_digits (text_data : String) : List Nat :=
  (digitRunsAux text_data.data []).map digitsToNat

/-- The `for i in range(0, len(numbers), 2)` loop: pair the extracted
numbers consecutively as `(key, value)`, dropping a trailing unpaired one. -/
def pairUp : List Nat → List Team
  | a :: b :: rest => (a, b) :: pairUp rest
  | _ => []

/-- The function `parse_power_data` of the source: extract the digit runs, pair them as
(identifier, power), and stable-sort by power descending
(`sorted(..., key=lambda x: x[1], reverse=True)`). -/
def parse_power_data (text_data : String) : List Team :=
  (pairUp (findall_digits text_data)).mergeSort (fun a b => b.2 ≤ a.2)

/-! ## `run_precise_optimization_logic` -/

/-- The opposing rosters, one list of parsed teams per lane
(the `enemy_data` dict). -/
structure EnemyData where
  left : List Team
  center : List Team
  right : List Team
deriving DecidableEq, Repr

/-- The `advantages` dict; a missing key (read through `.get(name, 0)`)
is `none`. -/
structure Advantages where
  left : Option Int
  center : Option Int
  right : Option Int
deriving DecidableEq, Repr

/-- The total power of a roster: the sum of the second components, with
identifiers ignored. -/
def sumPower (teams : List Team) : Nat :=
  (teams.map (fun t => t.2)).sum

/-- The four summary messages the report can carry, each with the
values the source interpolates into the corresponding format string. -/
inductive Summary where
  /-- The count-mismatch error message, carrying the roster size. -/
  | countMismatch (n : Nat)
  /-- The insufficient-total-power warning, carrying the shortfall. -/
  | insufficientPower (shortfall : Int)
  /-- The fully-successful-allocation message. -/
  | allocSuccess
  /-- The partially-successful-allocation warning. -/
  | allocWarning
deriving DecidableEq, Repr

/-- The `report` dict: the two `analysis` entries (targets and total-power
figures, recorded before any branching), the summary, and
`best_allocation` (`None` embedded as `none`). -/
structure Report where
  enemy_totals : Nat × Nat × Nat
  our_targets : Targets
  our_total_power : Nat
  required_total_power : Int
  power_difference : Int
  summary : Summary
  best_allocation : Option Allocation
deriving DecidableEq, Repr

/-- The function `run_precise_optimization_logic` of the source:
compute the targets and the total-power figures, then reject on a roster
count other than 60, then reject on a negative total-power difference, and
otherwise run the allocator once. -/
def run_precise_optimization_logic (our_data_list : List Team)
    (enemy_data : EnemyData) (advantages : Advantages) : Report :=
  let enemy_total_powers :=
    (sumPower enemy_data.left, sumPower enemy_data.center,
      sumPower enemy_data.right)
  let our_target_powers : Targets :=
    { left := (sumPower enemy_data.left : Int) + advantages.left.getD 0
      center := (sumPower enemy_data.center : Int) + advantages.center.getD 0
      right := (sumPower enemy_data.right : Int) + advantages.right.getD 0 }
  let our_total_power := sumPower our_data_list
  let required_total_power := our_target_powers.left +
    our_target_powers.center + our_target_powers.right
  let power_diff := (our_total_power : Int) - required_total_power
  if our_data_list.length ≠ 60 then
    { enemy_totals := enemy_total_powers
      our_targets := our_target_powers
      our_total_power := our_total_power
      required_total_power := required_total_power
      power_difference := power_diff
      summary := .countMismatch our_data_list.length
      best_allocation := none }
  else if power_diff < 0 then
    { enemy_totals := enemy_total_powers
      our_targets := our_target_powers
      our_total_power := our_total_power
      required_total_power := required_total_power
      power_difference := power_diff
      summary := .insufficientPower (-power_diff)
      best_allocation := none }
  else
    let allocation_result := find_best_allocation our_data_list
      our_target_powers
    { enemy_totals := enemy_total_powers
      our_targets := our_target_powers
      our_total_power := our_total_power
      required_total_power := required_total_power
      power_difference := power_diff
      summary := if allocation_result.success then .allocSuccess
        else .allocWarning
      best_allocation := some allocation_result }

/-! ## Selection lemmas: the deficit-priority choice -/

/-- The deficit values by lane name, as scanned by the source. -/
def sel (dl dc dr : Option Int) : LaneName → Option Int
  | .left => dl
  | .center => dc
  | .right => dr

/-- The integer deficit of a lane, capacity ignored. -/
def laneDeficit (s : Lanes) (l : LaneName) : Int :=
  (laneOf s l).target - ((laneOf s l).current_power : Int)

lemma sel_deficit (s : Lanes) (l : LaneName) :
    sel (deficit s.left) (deficit s.center) (deficit s.right) l =
      deficit (laneOf s l) := by
  cases l <;> rfl

lemma deficit_isSome_iff (d : LaneState) :
    (deficit d).isSome = true ↔ d.teams.length < 20 := by
  unfold deficit
  split <;> simp_all

/-- The scan `max(deficits, key=deficits.get)` picks a key holding an actual
integer (not the `-inf` sentinel), that integer is the greatest value held by
any key, and among keys holding that greatest value the picked one comes
first in the iteration order left, center, right. -/
lemma pick_spec (dl dc dr : Option Int)
    (h : ¬(dl = none ∧ dc = none ∧ dr = none)) :
    ∃ v, sel dl dc dr (pick dl dc dr) = some v ∧
      (∀ l' v', sel dl dc dr l' = some v' → v' ≤ v) ∧
      (∀ l' v', sel dl dc dr l' = some v' → v' = v →
        laneIdx (pick dl dc dr) ≤ laneIdx l') := by
  rcases dl with _ | a <;> rcases dc with _ | b <;> rcases dr with _ | c
  · simp at h
  · have hp : pick none none (some c) = LaneName.right := by
      simp [pick, dlt]
    rw [hp]
    exact ⟨c, rfl,
      by rintro (_ | _ | _) v' hv' <;> simp_all [sel],
      by rintro (_ | _ | _) v' hv' <;> simp_all [sel, laneIdx]⟩
  · have hp : pick none (some b) none = LaneName.center := by
      simp [pick, dlt]
    rw [hp]
    exact ⟨b, rfl,
      by rintro (_ | _ | _) v' hv' <;> simp_all [sel],
      by rintro (_ | _ | _) v' hv' <;> simp_all [sel, laneIdx]⟩
  · by_cases hbc : b < c
    · have hp : pick none (some b) (some c) = LaneName.right := by
        simp [pick, dlt, hbc]
      rw [hp]
      exact ⟨c, rfl,
        by rintro (_ | _ | _) v' hv' <;> simp_all [sel] <;> omega,
        by rintro (_ | _ | _) v' hv' <;> simp_all [sel, laneIdx] <;> omega⟩
    · have hp : pick none (some b) (some c) = LaneName.center := by
        simp [pick, dlt, hbc]
      rw [hp]
      exact ⟨b, rfl,
        by rintro (_ | _ | _) v' hv' <;> simp_all [sel] <;> omega,
        by rintro (_ | _ | _) v' hv' <;> simp_all [sel, laneIdx]⟩
  · have hp : pick (some a) none none = LaneName.left := by
      simp [pick, dlt]
    rw [hp]
    exact ⟨a, rfl,
      by rintro (_ | _ | _) v' hv' <;> simp_all [sel],
      by rintro (_ | _ | _) v' hv' <;> simp_all [sel, laneIdx]⟩
  · by_cases hac : a < c
    · have hp : pick (some a) none (some c) = LaneName.right := by
        simp [pick, dlt, hac]
      rw [hp]
      exact ⟨c, rfl,
        by rintro (_ | _ | _) v' hv' <;> simp_all [sel] <;> omega,
        by rintro (_ | _ | _) v' hv' <;> simp_all [sel, laneIdx] <;> omega⟩
    · have hp : pick (some a) none (some c) = LaneName.left := by
        simp [pick, dlt, hac]
      rw [hp]
      exact ⟨a, rfl,
        by rintro (_ | _ | _) v' hv' <;> simp_all [sel] <;> omega,
        by rintro (_ | _ | _) v' hv' <;> simp_all [sel, laneIdx]⟩
  · by_cases hab : a < b
    · have hp : pick (some a) (some b) none = LaneName.center := by
        simp [pick, dlt, hab]
      rw [hp]
      exact ⟨b, rfl,
        by rintro (_ | _ | _) v' hv' <;> simp_all [sel] <;> omega,
        by rintro (_ | _ | _) v' hv' <;> simp_all [sel, laneIdx] <;> omega⟩
    · have hp : pick (some a) (some b) none = LaneName.left := by
        simp [pick, dlt, hab]
      rw [hp]
      exact ⟨a, rfl,
        by rintro (_ | _ | _) v' hv' <;> simp_all [sel] <;> omega,
        by rintro (_ | _ | _) v' hv' <;> simp_all [sel, laneIdx]⟩
  · by_cases hab : a < b
    · by_cases hbc : b < c
      · have hp : pick (some a) (some b) (some c) = LaneName.right := by
          simp [pick, dlt, hab, hbc]
        rw [hp]
        exact ⟨c, rfl,
          by rintro (_ | _ | _) v' hv' <;> simp_all [sel] <;> omega,
          by rintro (_ | _ | _) v' hv' <;> simp_all [sel, laneIdx] <;>
            omega⟩
      · have hp : pick (some a) (some b) (some c) = LaneName.center := by
          simp [pick, dlt, hab, hbc]
        rw [hp]
        exact ⟨b, rfl,
          by rintro (_ | _ | _) v' hv' <;> simp_all [sel] <;> omega,
          by rintro (_ | _ | _) v' hv' <;> simp_all [sel, laneIdx] <;>
            omega⟩
    · by_cases hac : a < c
      · have hp : pick (some a) (some b) (some c) = LaneName.right := by
          simp [pick, dlt, hab, hac]
        rw [hp]
        exact ⟨c, rfl,
          by rintro (_ | _ | _) v' hv' <;> simp_all [sel] <;> omega,
          by rintro (_ | _ | _) v' hv' <;> simp_all [sel, laneIdx] <;>
            omega⟩
      · have hp : pick (some a) (some b) (some c) = LaneName.left := by
          simp [pick, dlt, hab, hac]
        rw [hp]
        exact ⟨a, rfl,
          by rintro (_ | _ | _) v' hv' <;> simp_all [sel] <;> omega,
          by rintro (_ | _ | _) v' hv' <;> simp_all [sel, laneIdx]⟩

lemma allFull_eq_false_iff (s : Lanes) :
    allFull s = false ↔
      ¬(deficit s.left = none ∧ deficit s.center = none ∧
        deficit s.right = none) := by
  unfold allFull
  rcases hl : deficit s.left <;> rcases hc : deficit s.center <;>
    rcases hr : deficit s.right <;> simp

/-- When not every lane is full, the chosen lane is itself not full. -/
lemma bestLane_eligible (s : Lanes) (h : allFull s = false) :
    (laneOf s (bestLane s)).teams.length < 20 := by
  obtain ⟨v, hv, -, -⟩ :=
    pick_spec (deficit s.left) (deficit s.center) (deficit s.right)
      ((allFull_eq_false_iff s).mp h)
  rw [sel_deficit] at hv
  rw [← deficit_isSome_iff]
  simp [bestLane] at hv ⊢
  simp [hv]

/-! ## Loop invariants of the allocation loop -/

/-- Per-lane invariant: the accumulated power is the sum of the assigned
powers of the assigned teams, and the lane holds at most 20 teams. -/
def laneInv (d : LaneState) : Prop :=
  d.current_power = sumPower d.teams ∧ d.teams.length ≤ 20

/-- The invariant for all three lanes. -/
def lanesInv (s : Lanes) : Prop :=
  laneInv s.left ∧ laneInv s.center ∧ laneInv s.right

/-- All teams currently assigned, lane by lane. -/
def joined (s : Lanes) : List Team :=
  s.left.teams ++ s.center.teams ++ s.right.teams

/-- Total number of assigned teams. -/
def totalLen (s : Lanes) : Nat :=
  s.left.teams.length + s.center.teams.length + s.right.teams.length

lemma sumPower_append (l₁ l₂ : List Team) :
    sumPower (l₁ ++ l₂) = sumPower l₁ + sumPower l₂ := by
  simp [sumPower]

lemma laneInv_addTeam {d : LaneState} (h : laneInv d)
    (hlt : d.teams.length < 20) (t : Team) : laneInv (addTeam d t) := by
  obtain ⟨hcp, -⟩ := h
  constructor
  · simp [addTeam, sumPower_append, hcp, sumPower]
  · simp [addTeam]
    omega

lemma laneOf_setLane_self (s : Lanes) (l : LaneName) (d : LaneState) :
    laneOf (setLane s l d) l = d := by
  cases l <;> rfl

lemma lanesInv_addToLane {s : Lanes} (h : lanesInv s) (l : LaneName)
    (hlt : (laneOf s l).teams.length < 20) (t : Team) :
    lanesInv (addToLane s l t) := by
  obtain ⟨h1, h2, h3⟩ := h
  cases l <;>
    exact ⟨by first
        | exact laneInv_addTeam h1 hlt t | exact laneInv_addTeam h2 hlt t
        | exact laneInv_addTeam h3 hlt t | exact h1,
      by first
        | exact laneInv_addTeam h2 hlt t | exact h2,
      by first
        | exact laneInv_addTeam h3 hlt t | exact h3⟩

lemma target_addToLane (s : Lanes) (l : LaneName) (t : Team)
    (l' : LaneName) :
    (laneOf (addToLane s l t) l').target = (laneOf s l').target := by
  cases l <;> cases l' <;> rfl

lemma totalLen_addToLane (s : Lanes) (l : LaneName) (t : Team) :
    totalLen (addToLane s l t) = totalLen s + 1 := by
  cases l <;> simp [totalLen, addToLane, setLane, laneOf, addTeam] <;> omega

lemma joined_addToLane (s : Lanes) (l : LaneName) (t : Team) :
    List.Perm (joined (addToLane s l t)) (joined s ++ [t]) := by
  have hR : List.Perm
      (s.left.teams ++ (s.center.teams ++ (s.right.teams ++ [t])))
      (t :: (s.left.teams ++ (s.center.teams ++ s.right.teams))) :=
    ((((List.perm_append_singleton t s.right.teams).append_left
        s.center.teams).append_left s.left.teams).trans
      (((List.perm_middle).append_left s.left.teams).trans
        List.perm_middle))
  cases l <;>
    simp only [joined, addToLane, setLane, laneOf, addTeam,
      List.append_assoc, List.singleton_append]
  · exact List.perm_middle.trans hR.symm
  · exact ((List.perm_middle).append_left s.left.teams).trans
      (List.perm_middle.trans hR.symm)
  · exact List.Perm.refl _

lemma totalLen_le {s : Lanes} (h : lanesInv s) : totalLen s ≤ 60 := by
  obtain ⟨⟨-, b1⟩, ⟨-, b2⟩, ⟨-, b3⟩⟩ := h
  unfold totalLen
  omega

/-- All lanes full means exactly 60 teams are placed (given the capacity
invariant). -/
lemma totalLen_of_allFull {s : Lanes} (h : lanesInv s)
    (hf : allFull s = true) : totalLen s = 60 := by
  obtain ⟨⟨-, h1⟩, ⟨-, h2⟩, ⟨-, h3⟩⟩ := h
  have hl := (deficit_isSome_iff s.left)
  have hc := (deficit_isSome_iff s.center)
  have hr := (deficit_isSome_iff s.right)
  unfold allFull at hf
  simp only [Bool.and_eq_true, Option.isNone_iff_eq_none] at hf
  obtain ⟨⟨f1, f2⟩, f3⟩ := hf
  unfold totalLen
  have : ¬ s.left.teams.length < 20 := by
    intro hx
    rw [← hl] at hx
    simp [f1] at hx
  have : ¬ s.center.teams.length < 20 := by
    intro hx
    rw [← hc] at hx
    simp [f2] at hx
  have : ¬ s.right.teams.length < 20 := by
    intro hx
    rw [← hr] at hx
    simp [f3] at hx
  omega

/-- Master lemma on the allocation loop: the lane invariants are preserved,
the lane targets never change, the number of placed teams is the number of
teams seen capped at 60, and the placed teams are exactly the first
`60 - totalLen` of the incoming ones, in multiset terms. -/
lemma foldl_assign_spec :
    ∀ (ts : List Team) (s : Lanes), lanesInv s →
      lanesInv (ts.foldl assignTeam s) ∧
      (∀ l, (laneOf (ts.foldl assignTeam s) l).target =
        (laneOf s l).target) ∧
      totalLen (ts.foldl assignTeam s) = min (totalLen s + ts.length) 60 ∧
      List.Perm (joined (ts.foldl assignTeam s))
        (joined s ++ ts.take (60 - totalLen s))
  | [], s, h => by
    refine ⟨h, fun l => rfl, ?_, ?_⟩
    · have := totalLen_le h
      simp
      omega
    · simp
  | t :: ts, s, h => by
    simp only [List.foldl_cons]
    by_cases hf : allFull s = true
    · have hs : assignTeam s t = s := by simp [assignTeam, hf]
      rw [hs]
      obtain ⟨ih1, ih2, ih3, ih4⟩ := foldl_assign_spec ts s h
      have h60 : totalLen s = 60 := totalLen_of_allFull h hf
      refine ⟨ih1, ih2, ?_, ?_⟩
      · rw [ih3, h60]
        simp
      · rw [h60] at ih4 ⊢
        simpa using ih4
    · have hf' : allFull s = false := by
        simpa using hf
      have hel : (laneOf s (bestLane s)).teams.length < 20 :=
        bestLane_eligible s hf'
      have hs : assignTeam s t = addToLane s (bestLane s) t := by
        simp [assignTeam, hf']
      rw [hs]
      have hinv1 : lanesInv (addToLane s (bestLane s) t) :=
        lanesInv_addToLane h _ hel t
      obtain ⟨ih1, ih2, ih3, ih4⟩ :=
        foldl_assign_spec ts (addToLane s (bestLane s) t) hinv1
      have htl : totalLen (addToLane s (bestLane s) t) = totalLen s + 1 :=
        totalLen_addToLane s (bestLane s) t
      have hlt60 : totalLen s < 60 := by
        obtain ⟨⟨-, b1⟩, ⟨-, b2⟩, ⟨-, b3⟩⟩ := h
        cases hbl : bestLane s <;> rw [hbl] at hel <;>
          simp [laneOf] at hel <;> unfold totalLen <;> omega
      refine ⟨ih1, ?_, ?_, ?_⟩
      · intro l
        rw [ih2 l, target_addToLane]
      · rw [ih3, htl]
        simp only [List.length_cons]
        omega
      · have hj1 : List.Perm (joined (addToLane s (bestLane s) t))
            (joined s ++ [t]) := joined_addToLane s (bestLane s) t
        have htake : (t :: ts).take (60 - totalLen s) =
            t :: ts.take (60 - totalLen (addToLane s (bestLane s) t)) := by
          rw [htl]
          have he : 60 - totalLen s = (60 - (totalLen s + 1)) + 1 := by
            omega
          rw [he]
          rfl
        rw [htake]
        refine ih4.trans ?_
        refine (hj1.append_right _).trans ?_
        rw [List.append_assoc, List.singleton_append]

lemma lanesInv_init (targets : Targets) : lanesInv (initLanes targets) := by
  refine ⟨⟨?_, ?_⟩, ⟨?_, ?_⟩, ⟨?_, ?_⟩⟩ <;> simp [initLanes, sumPower]

lemma deficit_eq_some_of_lt {d : LaneState} (h : d.teams.length < 20) :
    deficit d = some (d.target - (d.current_power : Int)) := by
  simp [deficit, h]

/-- The multiset of teams placed by `find_best_allocation` is exactly the
first 60 teams of the roster (all of them, when there are at most 60). -/
lemma alloc_teams_perm_take (roster : List Team) (targets : Targets) :
    List.Perm ((find_best_allocation roster targets).left.teams ++
      (find_best_allocation roster targets).center.teams ++
      (find_best_allocation roster targets).right.teams)
      (roster.take 60) := by
  obtain ⟨-, -, -, h4⟩ :=
    foldl_assign_spec roster (initLanes targets) (lanesInv_init targets)
  have h4' : List.Perm
      (joined (roster.foldl assignTeam (initLanes targets)))
      (roster.take 60) := by
    simpa [joined, initLanes, totalLen] using h4
  simp only [find_best_allocation, finalizeLane]
  exact (((List.mergeSort_perm _ _).append
    (List.mergeSort_perm _ _)).append (List.mergeSort_perm _ _)).trans h4'

/-- C1: on a roster of exactly 60 teams, the three lane team lists of the
allocation returned by `find_best_allocation` are a partition of the roster:
their concatenation is a permutation of the input, so every team lands in
exactly one lane, with no duplicates and no omissions. -/
theorem alloc_partition_of_sixty (roster : List Team) (targets : Targets)
    (h : roster.length = 60) :
    List.Perm ((find_best_allocation roster targets).left.teams ++
      (find_best_allocation roster targets).center.teams ++
      (find_best_allocation roster targets).right.teams) roster := by
  have hp := alloc_teams_perm_take roster targets
  rwa [List.take_of_length_le (by omega)] at hp

/-- Concrete instance of C1: a 60-team roster is partitioned. -/
theorem alloc_partition_of_sixty_witness :
    (List.replicate 60 ((1, 100) : Team)).length = 60 ∧
    List.Perm
      ((find_best_allocation (List.replicate 60 ((1, 100) : Team))
          ⟨1000, 1000, 1000⟩).left.teams ++
        (find_best_allocation (List.replicate 60 ((1, 100) : Team))
          ⟨1000, 1000, 1000⟩).center.teams ++
        (find_best_allocation (List.replicate 60 ((1, 100) : Team))
          ⟨1000, 1000, 1000⟩).right.teams)
      (List.replicate 60 ((1, 100) : Team)) :=
  ⟨by simp,
    alloc_partition_of_sixty (List.replicate 60 ((1, 100) : Team))
      ⟨1000, 1000, 1000⟩ (by simp)⟩

/-- C2: whenever some lane is below capacity, the team at hand goes to a
lane that is below capacity, whose deficit is greatest among the
below-capacity lanes, and which comes first in the order
left, center, right among the below-capacity lanes sharing that greatest
deficit — so the selection is deterministic. -/
theorem greedy_assigns_max_deficit_lane (s : Lanes) (t : Team)
    (h : allFull s = false) :
    ∃ l : LaneName,
      (laneOf s l).teams.length < 20 ∧
      (∀ l', (laneOf s l').teams.length < 20 →
        laneDeficit s l' ≤ laneDeficit s l) ∧
      (∀ l', (laneOf s l').teams.length < 20 →
        laneDeficit s l' = laneDeficit s l → laneIdx l ≤ laneIdx l') ∧
      assignTeam s t = addToLane s l t := by
  obtain ⟨v, hv, hmax, htie⟩ :=
    pick_spec (deficit s.left) (deficit s.center) (deficit s.right)
      ((allFull_eq_false_iff s).mp h)
  rw [sel_deficit] at hv
  have hbl : bestLane s =
      pick (deficit s.left) (deficit s.center) (deficit s.right) := rfl
  rw [← hbl] at hv htie
  have hel : (laneOf s (bestLane s)).teams.length < 20 := by
    rw [← deficit_isSome_iff, hv]
    rfl
  have hveq : v = laneDeficit s (bestLane s) := by
    rw [deficit_eq_some_of_lt hel] at hv
    simpa [laneDeficit] using hv.symm
  refine ⟨bestLane s, hel, ?_, ?_, by simp [assignTeam, h]⟩
  · intro l' hl'
    have := hmax l' (laneDeficit s l')
      (by rw [sel_deficit, deficit_eq_some_of_lt hl']; rfl)
    rw [← hveq]
    exact this
  · intro l' hl' heq
    exact htie l' (laneDeficit s l')
      (by rw [sel_deficit, deficit_eq_some_of_lt hl']; rfl)
      (by rw [hveq]; exact heq)

/-- Concrete instance of C2 at the initial state. -/
theorem greedy_assigns_max_deficit_lane_witness :
    allFull (initLanes ⟨5, 3, 3⟩) = false ∧
    ∃ l : LaneName,
      (laneOf (initLanes ⟨5, 3, 3⟩) l).teams.length < 20 ∧
      (∀ l', (laneOf (initLanes ⟨5, 3, 3⟩) l').teams.length < 20 →
        laneDeficit (initLanes ⟨5, 3, 3⟩) l' ≤
        laneDeficit (initLanes ⟨5, 3, 3⟩) l) ∧
      (∀ l', (laneOf (initLanes ⟨5, 3, 3⟩) l').teams.length < 20 →
        laneDeficit (initLanes ⟨5, 3, 3⟩) l' =
          laneDeficit (initLanes ⟨5, 3, 3⟩) l → laneIdx l ≤ laneIdx l') ∧
      assignTeam (initLanes ⟨5, 3, 3⟩) (1, 2) =
        addToLane (initLanes ⟨5, 3, 3⟩) l (1, 2) :=
  ⟨by decide,
    greedy_assigns_max_deficit_lane (initLanes ⟨5, 3, 3⟩) (1, 2)
      (by decide)⟩

/-- C5: no lane ever holds more than 20 teams — neither at any intermediate
point of the allocation loop (after any number of processed teams) nor in
the returned allocation. -/
theorem lane_capacity_never_exceeded (roster : List Team)
    (targets : Targets) (n : Nat) :
    (((roster.take n).foldl assignTeam (initLanes targets)).left.teams.length
        ≤ 20 ∧
      ((roster.take n).foldl assignTeam
        (initLanes targets)).center.teams.length ≤ 20 ∧
      ((roster.take n).foldl assignTeam
        (initLanes targets)).right.teams.length ≤ 20) ∧
    ((find_best_allocation roster targets).left.count ≤ 20 ∧
      (find_best_allocation roster targets).center.count ≤ 20 ∧
      (find_best_allocation roster targets).right.count ≤ 20) := by
  obtain ⟨⟨⟨-, i1⟩, ⟨-, i2⟩, ⟨-, i3⟩⟩, -, -, -⟩ :=
    foldl_assign_spec (roster.take n) (initLanes targets)
      (lanesInv_init targets)
  obtain ⟨⟨⟨-, j1⟩, ⟨-, j2⟩, ⟨-, j3⟩⟩, -, -, -⟩ :=
    foldl_assign_spec roster (initLanes targets) (lanesInv_init targets)
  refine ⟨⟨i1, i2, i3⟩, ?_, ?_, ?_⟩
  · simpa [find_best_allocation, finalizeLane] using j1
  · simpa [find_best_allocation, finalizeLane] using j2
  · simpa [find_best_allocation, finalizeLane] using j3

/-- C9: `find_best_allocation` is deterministic: it is a pure function of
the sorted roster and the targets, with the tie-break order over lanes fixed
inside `pick`, so re-running it on the same input yields the identical
allocation. -/
theorem find_best_allocation_deterministic (roster : List Team)
    (targets : Targets) :
    find_best_allocation roster targets = find_best_allocation roster
      targets := rfl

/-- C10: the allocator is total and places `min (roster length) 60` teams:
the three lane counts sum to that figure, the placed teams are exactly the
first 60 of the roster (so a longer roster has its excess dropped and a
shorter one is fully placed). -/
theorem find_best_allocation_counts (roster : List Team)
    (targets : Targets) :
    List.Perm ((find_best_allocation roster targets).left.teams ++
      (find_best_allocation roster targets).center.teams ++
      (find_best_allocation roster targets).right.teams)
      (roster.take 60) ∧
    (find_best_allocation roster targets).left.count +
      (find_best_allocation roster targets).center.count +
      (find_best_allocation roster targets).right.count =
      min roster.length 60 := by
  refine ⟨alloc_teams_perm_take roster targets, ?_⟩
  obtain ⟨-, -, h3, -⟩ :=
    foldl_assign_spec roster (initLanes targets) (lanesInv_init targets)
  have h0 : totalLen (initLanes targets) = 0 := by
    simp [totalLen, initLanes]
  rw [h0, Nat.zero_add] at h3
  simpa [find_best_allocation, finalizeLane, totalLen] using h3

/-- The sum of the three computed lane targets. -/
def requiredTotal (enemy_data : EnemyData) (advantages : Advantages) :
    Int :=
  ((sumPower enemy_data.left : Int) + advantages.left.getD 0) +
    ((sumPower enemy_data.center : Int) + advantages.center.getD 0) +
    ((sumPower enemy_data.right : Int) + advantages.right.getD 0)

/-- C3: when the home roster does not hold exactly 60 teams, the summary
of the report is the count-mismatch message carrying the actual count, and no
allocation is produced — whatever the power values are. -/
theorem count_mismatch_short_circuit (our : List Team)
    (enemy : EnemyData) (adv : Advantages) (h : our.length ≠ 60) :
    (run_precise_optimization_logic our enemy adv).summary =
      Summary.countMismatch our.length ∧
    (run_precise_optimization_logic our enemy adv).best_allocation =
      none := by
  unfold run_precise_optimization_logic
  simp [h]

/-- Concrete instance of C3 on an empty roster. -/
theorem count_mismatch_short_circuit_witness :
    (run_precise_optimization_logic [] ⟨[(1, 5)], [], []⟩
        ⟨none, none, none⟩).summary = Summary.countMismatch 0 ∧
    (run_precise_optimization_logic [] ⟨[(1, 5)], [], []⟩
        ⟨none, none, none⟩).best_allocation = none :=
  count_mismatch_short_circuit [] ⟨[(1, 5)], [], []⟩ ⟨none, none, none⟩
    (by decide)

/-- C4: with exactly 60 home teams but a home total power strictly below
the sum of the three targets, the summary of the report is the
insufficient-power message carrying the exact shortfall (target sum minus
home total) and no allocation is produced. -/
theorem insufficient_power_short_circuit (our : List Team)
    (enemy : EnemyData) (adv : Advantages) (h60 : our.length = 60)
    (hlt : (sumPower our : Int) < requiredTotal enemy adv) :
    (run_precise_optimization_logic our enemy adv).summary =
      Summary.insufficientPower
        (requiredTotal enemy adv - (sumPower our : Int)) ∧
    (run_precise_optimization_logic our enemy adv).best_allocation =
      none := by
  simp only [run_precise_optimization_logic]
  rw [h60]
  split_ifs with h1 h2
  · exact absurd rfl h1
  · refine ⟨?_, rfl⟩
    simp only [Summary.insufficientPower.injEq]
    unfold requiredTotal
    omega
  all_goals
    exfalso
    unfold requiredTotal at hlt
    omega

/-- Concrete instance of C4: 60 zero-power teams against a 5-power
opponent. -/
theorem insufficient_power_short_circuit_witness :
    (run_precise_optimization_logic (List.replicate 60 ((1, 0) : Team))
        ⟨[(1, 5)], [], []⟩ ⟨none, none, none⟩).summary =
      Summary.insufficientPower
        (requiredTotal ⟨[(1, 5)], [], []⟩ ⟨none, none, none⟩ -
          (sumPower (List.replicate 60 ((1, 0) : Team)) : Int)) ∧
    (run_precise_optimization_logic (List.replicate 60 ((1, 0) : Team))
        ⟨[(1, 5)], [], []⟩ ⟨none, none, none⟩).best_allocation = none :=
  insufficient_power_short_circuit (List.replicate 60 ((1, 0) : Team))
    ⟨[(1, 5)], [], []⟩ ⟨none, none, none⟩ (by simp) (by decide)

/-- C7: the targets recorded in the report are exactly
`opponent_total + advantage` per lane (a missing advantage defaults to 0),
where each opponent total is the sum of the team powers of that lane with
identifiers ignored; the computation is a total function. -/
theorem target_calculator_correct (our : List Team) (enemy : EnemyData)
    (adv : Advantages) :
    (run_precise_optimization_logic our enemy adv).our_targets =
      ⟨(sumPower enemy.left : Int) + adv.left.getD 0,
        (sumPower enemy.center : Int) + adv.center.getD 0,
        (sumPower enemy.right : Int) + adv.right.getD 0⟩ ∧
    (run_precise_optimization_logic our enemy adv).enemy_totals =
      (sumPower enemy.left, sumPower enemy.center, sumPower enemy.right) ∧
    (∀ (ts : List Team) (f : Team → Nat),
      sumPower (ts.map (fun u => (f u, u.2))) = sumPower ts) := by
  refine ⟨?_, ?_, ?_⟩
  · simp only [run_precise_optimization_logic]
    split_ifs <;> rfl
  · simp only [run_precise_optimization_logic]
    split_ifs <;> rfl
  · intro ts f
    simp [sumPower, List.map_map, Function.comp_def]

lemma sumPower_perm {l₁ l₂ : List Team} (h : List.Perm l₁ l₂) :
    sumPower l₁ = sumPower l₂ := by
  unfold sumPower
  exact (h.map (fun t => t.2)).sum_eq

/-- Coherence of one finalized lane record: the claimed relations between
its fields. -/
def laneResultCoherent (r : LaneResult) : Prop :=
  r.total_power = sumPower r.teams ∧
  (r.is_success = true ↔ (r.total_power : Int) ≥ r.target) ∧
  r.difference = (r.total_power : Int) - r.target ∧
  r.teams.Pairwise (fun x y => x.1 ≤ y.1)

lemma finalizeLane_coherent (d : LaneState) (hinv : laneInv d) :
    laneResultCoherent (finalizeLane d) := by
  obtain ⟨hcp, -⟩ := hinv
  refine ⟨?_, ?_, rfl, ?_⟩
  · simp only [finalizeLane]
    rw [hcp]
    exact (sumPower_perm (List.mergeSort_perm d.teams _)).symm
  · simp only [finalizeLane, ge_iff_le, decide_eq_true_eq]
  · simp only [finalizeLane]
    exact (List.sorted_mergeSort
      (fun a b c hab hbc => by
        simp only [decide_eq_true_eq] at *
        omega)
      (fun a b => by simpa using Nat.le_total a.1 b.1)
      d.teams).imp (fun h => by simpa using h)

/-- C6: in every allocation returned by `find_best_allocation`, the
`total_power` of each lane is the sum of the listed team powers,
`is_success` holds exactly when `total_power` reaches the lane target,
`difference` is
`total_power - target`, the teams are listed sorted by identifier
ascending, and the global `success` flag holds exactly when all three
lanes succeed. -/
theorem allocation_postprocessing_correct (roster : List Team)
    (targets : Targets) :
    laneResultCoherent ((find_best_allocation roster targets).left) ∧
    laneResultCoherent ((find_best_allocation roster targets).center) ∧
    laneResultCoherent ((find_best_allocation roster targets).right) ∧
    ((find_best_allocation roster targets).success = true ↔
      ((find_best_allocation roster targets).left.is_success = true ∧
        (find_best_allocation roster targets).center.is_success = true ∧
        (find_best_allocation roster targets).right.is_success = true)) := by
  obtain ⟨⟨hL, hC, hR⟩, -, -, -⟩ :=
    foldl_assign_spec roster (initLanes targets) (lanesInv_init targets)
  refine ⟨?_, ?_, ?_, ?_⟩
  · simpa [find_best_allocation] using finalizeLane_coherent _ hL
  · simpa [find_best_allocation] using finalizeLane_coherent _ hC
  · simpa [find_best_allocation] using finalizeLane_coherent _ hR
  · simp [find_best_allocation, Bool.and_eq_true, and_assoc]

/-! ## Parsing claims -/

lemma pairUp_length : ∀ ns : List Nat,
    (pairUp ns).length = ns.length / 2
  | [] => rfl
  | [_] => by
    simp [pairUp]
  | _ :: _ :: ns => by
    simp only [pairUp, List.length_cons, pairUp_length ns]
    omega

/-- A stable sort leaves a block of mutually tied elements in their
original relative order: filtering by any predicate that only holds on
mutually tied elements commutes with `mergeSort`. -/
lemma filter_mergeSort_of_uniform {α : Type} (le : α → α → Bool)
    (tr : ∀ (a b c : α), le a b = true → le b c = true → le a c = true)
    (tot : ∀ (a b : α), (le a b || le b a) = true)
    (q : α → Bool) (hq : ∀ a b, q a = true → q b = true → le a b = true)
    (l : List α) : (l.mergeSort le).filter q = l.filter q := by
  have hpw : (l.filter q).Pairwise (fun a b => le a b = true) :=
    List.pairwise_of_forall_mem_list (fun a ha b hb =>
      hq a b (List.of_mem_filter ha) (List.of_mem_filter hb))
  have hsub : List.Sublist (l.filter q) l := List.filter_sublist l
  have h1 : List.Sublist (l.filter q) (l.mergeSort le) :=
    List.sublist_mergeSort tr tot hpw hsub
  have h2 : (l.filter q).filter q = l.filter q :=
    List.filter_eq_self.mpr (fun a ha => List.of_mem_filter ha)
  have h3 : List.Sublist (l.filter q) ((l.mergeSort le).filter q) := by
    have h4 := h1.filter q
    rwa [h2] at h4
  have h5 : ((l.mergeSort le).filter q).length = (l.filter q).length :=
    ((List.mergeSort_perm l le).filter q).length_eq
  exact (h3.eq_of_length h5.symm).symm

/-- C8: `parse_power_data` returns exactly the consecutive (id, power)
pairs of the extracted decimal integer substrings (a trailing unpaired
integer dropped: the pair count is half the integer count, rounded down),
re-ordered into a descending-by-power list by a stable sort: the output is
a permutation of the pairs, is sorted by power descending, and the pairs of
any fixed power keep their original relative order. -/
theorem parse_power_data_spec (s : String) :
    List.Perm (parse_power_data s) (pairUp (findall_digits s)) ∧
    (parse_power_data s).Pairwise (fun a b => b.2 ≤ a.2) ∧
    (∀ p : Nat, (parse_power_data s).filter (fun t => decide (t.2 = p)) =
      (pairUp (findall_digits s)).filter (fun t => decide (t.2 = p))) ∧
    (pairUp (findall_digits s)).length = (findall_digits s).length / 2 := by
  unfold parse_power_data
  refine ⟨List.mergeSort_perm _ _, ?_, ?_, pairUp_length _⟩
  · exact (List.sorted_mergeSort
      (fun a b c hab hbc => by
        simp only [decide_eq_true_eq] at *
        omega)
      (fun a b => by simpa using Nat.le_total b.2 a.2)
      (pairUp (findall_digits s))).imp (fun h => by simpa using h)
  · intro p
    exact filter_mergeSort_of_uniform _
      (fun a b c hab hbc => by
        simp only [decide_eq_true_eq] at *
        omega)
      (fun a b => by simpa using Nat.le_total b.2 a.2)
      _
      (fun a b ha hb => by
        simp only [decide_eq_true_eq] at *
        omega)
      _

end OTT
